import Mathlib

/-!
Verification development for the HiLite browser extension
(highlight anchoring and re-anchoring engine).

The repository ships two content-script variants:
* `content.js` — the simple variant (namespace `Simple` below);
* an advanced variant (namespace `Adv` below) that additionally stores
  CSS-selector/XPath anchors, a backup storage key, and an
  approximate-match fallback.

The DOM is embedded as a rose tree of element and text nodes; JavaScript
strings are embedded as `List Char`; the browser storage area is embedded
as explicit state passed through the operations.
-/

namespace HiLite

/-- JavaScript strings, embedded as character lists. -/
abbrev Str := List Char

/-- `jsBlank s` models `!s || s.trim() === ''`: the string is empty or
consists only of whitespace characters. -/
def jsBlank (s : Str) : Bool := s.all Char.isWhitespace

/-- `occurs pat s` models JavaScript `s.includes(pat)`: `pat` occurs as a
contiguous substring of `s`. -/
def occurs (pat s : Str) : Bool :=
  (List.range (s.length + 1)).any (fun i => pat.isPrefixOf (s.drop i))

/-- `indexOf? s pat` models JavaScript `s.indexOf(pat)`, as an `Option`:
the least index at which `pat` occurs in `s`, if any. -/
def indexOf? (s pat : Str) : Option Nat :=
  (List.range (s.length + 1)).find? (fun i => pat.isPrefixOf (s.drop i))

/-- `slice s j k` models `s.substring(j, j + k)` for `j + k ≤ s.length`. -/
def slice (s : Str) (j k : Nat) : Str := (s.drop j).take k

/-- A DOM node: either a text node or an element with a tag name, an `id`
attribute, a `class` attribute and a list of children. -/
inductive DNode where
  | text : Str → DNode
  | elem : (tag eid cls : Str) → List DNode → DNode
deriving Repr

mutual

/-- Decidable equality of DOM nodes (hand-rolled: `deriving` does not handle
the nested `List DNode`). -/
def decEqDNode : (a b : DNode) → Decidable (a = b)
  | .text s, .text t =>
      if h : s = t then .isTrue (by rw [h]) else .isFalse (by simp [h])
  | .text _, .elem .. => .isFalse (by simp)
  | .elem .., .text _ => .isFalse (by simp)
  | .elem t1 i1 c1 ch1, .elem t2 i2 c2 ch2 =>
      if h1 : t1 = t2 then
        if h2 : i1 = i2 then
          if h3 : c1 = c2 then
            match decEqDNodeList ch1 ch2 with
            | .isTrue h4 => .isTrue (by rw [h1, h2, h3, h4])
            | .isFalse h4 => .isFalse (by simp [h4])
          else .isFalse (by simp [h3])
        else .isFalse (by simp [h2])
      else .isFalse (by simp [h1])

/-- Decidable equality of DOM forests. -/
def decEqDNodeList : (a b : List DNode) → Decidable (a = b)
  | [], [] => .isTrue rfl
  | [], _ :: _ => .isFalse (by simp)
  | _ :: _, [] => .isFalse (by simp)
  | x :: xs, y :: ys =>
      match decEqDNode x y, decEqDNodeList xs ys with
      | .isTrue h1, .isTrue h2 => .isTrue (by rw [h1, h2])
      | .isFalse h1, _ => .isFalse (by simp [h1])
      | _, .isFalse h2 => .isFalse (by simp [h2])

end

instance : DecidableEq DNode := decEqDNode

/-- The shared marker class applied to every live highlight element
(`this.highlightClass` in both content scripts). -/
def highlightClass : Str := "web-highlighter-highlight".data

/-- The contents of the text nodes of a forest, in document order
(models walking with `createTreeWalker(…, NodeFilter.SHOW_TEXT)`). -/
def leavesL : List DNode → List Str
  | [] => []
  | DNode.text s :: rest => s :: leavesL rest
  | DNode.elem _ _ _ ch :: rest => leavesL ch ++ leavesL rest
termination_by l => sizeOf l

/-- The flattened text content of a forest (models `textContent`). -/
def textContentL : List DNode → Str
  | [] => []
  | DNode.text s :: rest => s ++ textContentL rest
  | DNode.elem _ _ _ ch :: rest => textContentL ch ++ textContentL rest
termination_by l => sizeOf l

/-- Number of elements in a forest whose `id` attribute equals `i`
(counts what `document.getElementById`-style lookups can see). -/
def countByIdL (i : Str) : List DNode → Nat
  | [] => 0
  | DNode.text _ :: rest => countByIdL i rest
  | DNode.elem _ eid _ ch :: rest =>
      (if eid = i then 1 else 0) + countByIdL i ch + countByIdL i rest
termination_by l => sizeOf l

/-- Number of elements in a forest carrying class `c`
(what `querySelectorAll('.' + c)` finds). -/
def countByClassL (c : Str) : List DNode → Nat
  | [] => 0
  | DNode.text _ :: rest => countByClassL c rest
  | DNode.elem _ _ cls ch :: rest =>
      (if cls = c then 1 else 0) + countByClassL c ch + countByClassL c rest
termination_by l => sizeOf l

/-- Number of elements in a forest with tag `t`. -/
def countByTagL (t : Str) : List DNode → Nat
  | [] => 0
  | DNode.text _ :: rest => countByTagL t rest
  | DNode.elem tag _ _ ch :: rest =>
      (if tag = t then 1 else 0) + countByTagL t ch + countByTagL t rest
termination_by l => sizeOf l

/-- Children of a node (`[]` for a text node). -/
def childrenOf : DNode → List DNode
  | DNode.text _ => []
  | DNode.elem _ _ _ ch => ch

/-- A persisted highlight record (its `id`, anchor `text` and `color`
fields; `url`/`timestamp` do not take part in any claim). -/
structure Highlight where
  id : Str
  text : Str
  color : Str
deriving Repr, DecidableEq

/-- Generic embedding of the restoration loops of both content scripts:
walk the text nodes of a forest in document order; at the first text node
on which `hit` fires, splice in the replacement nodes it produced and stop
(the loops `break` after the first mutation). Returns the new forest and
whether a replacement happened. -/
def scanFirst (hit : Str → Option (List DNode)) : List DNode → List DNode × Bool
  | [] => ([], false)
  | DNode.text s :: rest =>
      match hit s with
      | some repl => (repl ++ rest, true)
      | none =>
          let q := scanFirst hit rest
          (DNode.text s :: q.1, q.2)
  | DNode.elem t i c ch :: rest =>
      let p := scanFirst hit ch
      if p.2 then (DNode.elem t i c p.1 :: rest, true)
      else
        let q := scanFirst hit rest
        (DNode.elem t i c ch :: q.1, q.2)
termination_by l => sizeOf l

/-- Replace the `k`-th text node (in document order) of a forest by the
node list `repl` applied to its contents; out-of-range `k` leaves the
forest unchanged.  Used by the specification-side formulations. -/
def replaceLeaf (k : Nat) (repl : Str → List DNode) : List DNode → List DNode
  | [] => []
  | DNode.text s :: rest =>
      match k with
      | 0 => repl s ++ rest
      | k' + 1 => DNode.text s :: replaceLeaf k' repl rest
  | DNode.elem t i c ch :: rest =>
      if k < (leavesL ch).length then
        DNode.elem t i c (replaceLeaf k repl ch) :: rest
      else
        DNode.elem t i c ch :: replaceLeaf (k - (leavesL ch).length) repl rest
termination_by l => sizeOf l

namespace Simple

/-- `content.js` `restoreHighlight`, lines 296-314: split the found text
node around the first occurrence of the record's text (`indexOf`), keeping
non-empty before/after pieces as sibling text nodes and wrapping the
occurrence in a `span` with the record's `id`, the shared class, and the
record's text as content. -/
def wrapSplit (s : Str) (hl : Highlight) : List DNode :=
  let i := (indexOf? s hl.text).getD 0
  let beforeText := s.take i
  let afterText := s.drop (i + hl.text.length)
  (if beforeText = [] then [] else [DNode.text beforeText])
    ++ [DNode.elem "span".data hl.id highlightClass [DNode.text hl.text]]
    ++ (if afterText = [] then [] else [DNode.text afterText])

/-- The per-text-node test of the `content.js` restoration walker:
`text.includes(textToFind)` triggers the split-and-wrap replacement. -/
def hitExact (hl : Highlight) (s : Str) : Option (List DNode) :=
  if occurs hl.text s then some (wrapSplit s hl) else none

/-- `content.js` `restoreHighlight`, lines 286-316: the `TreeWalker` loop —
walk all text nodes of `document.body` in document order, wrap inside the
first one containing the record's text, `break` after the first wrap. -/
def locateWrap (hl : Highlight) (doc : List DNode) : List DNode :=
  (scanFirst (hitExact hl) doc).1

/-- `content.js` `restoreHighlight`, lines 277-320: guard against
empty/blank record text, then run the walker loop. -/
def restoreHighlight (hl : Highlight) (doc : List DNode) : List DNode :=
  if jsBlank hl.text then doc else locateWrap hl doc

/-- The DOM effect of `content.js` `createHighlight` (lines 167-185) on the
extracted selection contents: the new span's content is
`range.toString()` — the *flattened text* of the selection
(`highlightSpan.textContent = textContent`), not the extracted nodes. -/
def createHighlightFrag (contents : List DNode) (hid color : Str) : DNode :=
  DNode.elem "span".data hid highlightClass [DNode.text (textContentL contents)]

/-- `content.js` `saveHighlight` (lines 190-215): read-modify-write of the
URL's record list.  `writeOk` models whether `browser.storage.local.set`
succeeds; on failure the `catch` block only logs, leaving the store
unchanged and raising nothing to the caller. -/
def saveHighlight (writeOk : Bool) (st : Option (List Highlight))
    (r : Highlight) : Option (List Highlight) :=
  if writeOk then some ((st.getD []) ++ [r]) else st

/-- Result value returned by `highlightSelection` to the popup. -/
structure SResult where
  success : Bool
  highlightId : Option Str
deriving Repr, DecidableEq

/-- `content.js` `highlightSelection` (lines 140-162): reject a blank
selection; otherwise wrap the range, fire-and-forget `saveHighlight`
(the promise is not awaited), and report success.  `selection` is the
selected text (`selection.toString()`, which is also the created record's
`text`). -/
def highlightSelection (writeOk : Bool) (selection : Str) (hid color : Str)
    (st : Option (List Highlight)) : SResult × Option (List Highlight) :=
  if jsBlank selection then ({ success := false, highlightId := none }, st)
  else ({ success := true, highlightId := some hid },
        saveHighlight writeOk st { id := hid, text := selection, color := color })

end Simple

namespace Adv

/-- The advanced variant's `highlightTextNode` replacement string
(lines 508-522): every non-overlapping occurrence of `hl.text` (leftmost
first, as by a global regex `replace`) becomes a highlight span; the text
between occurrences stays as text nodes; empty pieces produce no node.
The empty-pattern guard is unreachable (record text is non-empty on every
call path). -/
def splitAll (hl : Highlight) (s : Str) : List DNode :=
  if hne : hl.text = [] then [DNode.text s]
  else
    match hidx : indexOf? s hl.text with
    | none => if s = [] then [] else [DNode.text s]
    | some i =>
        (if s.take i = [] then [] else [DNode.text (s.take i)])
          ++ [DNode.elem "span".data hl.id highlightClass [DNode.text hl.text]]
          ++ splitAll hl (s.drop (i + hl.text.length))
termination_by s.length
decreasing_by
  have h' := hidx
  unfold indexOf? at h'
  have hp := List.find?_some h'
  have hpre : hl.text <+: s.drop i := by
    simpa [List.isPrefixOf_iff_prefix] using hp
  have hlen := hpre.length_le
  rw [List.length_drop] at hlen
  have hpos : 1 ≤ hl.text.length := List.length_pos.mpr hne
  simp only [List.length_drop]
  omega

/-- The advanced variant's `highlightTextNode` (lines 508-522): if the
node's text matches, replace the text node by a fresh container `span`
(no id, no class) holding the regex-replaced content; otherwise the node
is left alone. -/
def highlightTextNode (s : Str) (hl : Highlight) : List DNode :=
  if occurs hl.text s then [DNode.elem "span".data [] [] (splitAll hl s)]
  else [DNode.text s]

/-- Per-text-node test of the advanced exact-search loops
(`findAndHighlightText` line 422, `searchAndHighlightText` line 443):
`text.includes(highlight.text)` triggers `highlightTextNode`. -/
def hitExact (hl : Highlight) (s : Str) : Option (List DNode) :=
  if occurs hl.text s then some (highlightTextNode s hl) else none

/-- The advanced variant's `findAndHighlightText` (lines 415-427): walk the
text nodes *of the given element*, wrap inside the first one containing
the record's text, `break`.  A `TreeWalker` never yields its root, so a
text-node root has no text nodes to visit. -/
def findAndHighlightText (hl : Highlight) (e : DNode) : DNode :=
  match e with
  | DNode.text _ => e
  | DNode.elem t i c ch => DNode.elem t i c (scanFirst (hitExact hl) ch).1

/-- `minLength = Math.max(3, Math.floor(highlight.text.length * 0.5))`
(line 459). -/
def minLengthOf (target : Str) : Nat := max 3 (target.length / 2)

/-- Upper bound of the inner length loop:
`Math.min(text.length - j, highlight.text.length)` (line 463). -/
def kMax (s : Str) (j : Nat) (target : Str) : Nat :=
  min (s.length - j) target.length

/-- The approximate-match scan inside one text node
(`searchAndHighlightText` lines 460-476): for `j = 0 .. text.length -
minLength` and `k = minLength .. kMax`, accept the first substring
`text.substring(j, j + k)` that is contained in the target and has length
at least `minLength`; the node is skipped when shorter than `minLength`. -/
def approxInNode (target : Str) (minL : Nat) (s : Str) : Option (Nat × Nat) :=
  if minL ≤ s.length then
    (List.range (s.length - minL + 1)).findSome? (fun j =>
      ((List.range' minL (kMax s j target + 1 - minL)).find? (fun k =>
          occurs (slice s j k) target && decide (minL ≤ (slice s j k).length))).map
        (fun k => (j, k)))
  else none

/-- Per-text-node action of the approximate phase: on the first accepted
`(j, k)` the node is rewritten by `highlightTextNode` with the *partial*
record `{ ...highlight, text: substring }` (line 468-469). -/
def hitApprox (hl : Highlight) (minL : Nat) (s : Str) : Option (List DNode) :=
  (approxInNode hl.text minL s).map (fun jk =>
    highlightTextNode s { hl with text := slice s jk.1 jk.2 })

/-- The advanced variant's `searchAndHighlightText` (lines 432-483):
exact substring search over every text node of the document body first;
only if that finds nothing, the approximate scan runs over the same text
nodes; if neither finds anything the document is untouched. -/
def searchAndHighlightText (hl : Highlight) (doc : List DNode) : List DNode :=
  let p := scanFirst (hitExact hl) doc
  if p.2 then p.1
  else (scanFirst (hitApprox hl (minLengthOf hl.text)) doc).1

/-- The DOM effect of the advanced `createHighlight` (lines 164-186) on the
extracted selection contents: `range.extractContents()` is appended into
the new span unchanged — child structure is preserved. -/
def createHighlightFrag (contents : List DNode) (hid color : Str) : DNode :=
  DNode.elem "span".data hid highlightClass contents

end Adv

/-- Look up the node at a child-index path in a forest (a resolved DOM
element is identified by its path from the body). -/
def getNode : List DNode → List Nat → Option DNode
  | l, [n] => l[n]?
  | l, n :: p =>
      match l[n]? with
      | some (DNode.elem _ _ _ ch) => getNode ch p
      | _ => none
  | _, [] => none

/-- Replace the node at a child-index path in a forest; an unresolvable
path leaves the forest unchanged. -/
def setNode : List DNode → List Nat → DNode → List DNode
  | l, [n], e => l.set n e
  | l, n :: p, e =>
      match l[n]? with
      | some (DNode.elem t i c ch) => l.set n (DNode.elem t i c (setNode ch p e))
      | _ => l
  | l, [], _ => l

namespace Adv

/-- The advanced variant's `restoreHighlight` (lines 374-410).
`selRes` and `xpathRes` are the outcomes of the two platform calls
`document.querySelector(highlight.selector)` and
`document.evaluate(highlight.xpath)` — external collaborators — given as
the path of the returned element (`none` when the field is absent, the
call throws, or it returns no node).  The selector result is consulted
first; only when both are `none` does the full-document search run.  A
genuinely resolved element is in the live document, so `getNode` succeeds
on real runs; the `none` fallback of the inner match is a totality
artifact. -/
def restoreHighlight (selRes xpathRes : Option (List Nat)) (hl : Highlight)
    (doc : List DNode) : List DNode :=
  let targetElement := match selRes with
    | some p => some p
    | none => xpathRes
  match targetElement with
  | some p =>
      match getNode doc p with
      | some e => setNode doc p (findAndHighlightText hl e)
      | none => doc
  | none => searchAndHighlightText hl doc

/-- Advanced-variant storage state for one page: the main key (the URL)
and the backup key (`backup_` + URL). -/
structure Storage where
  main : Option (List Highlight)
  backup : Option (List Highlight)
deriving Repr, DecidableEq

/-- The advanced `saveHighlight` (lines 191-229): append the record to the
main collection, then write the same collection to both the main key and
the backup key. -/
def saveHighlight (st : Storage) (r : Highlight) : Storage :=
  let highlights := (st.main.getD []) ++ [r]
  { main := some highlights, backup := some highlights }

/-- The advanced `clearHighlightsFromStorage` (lines 557-565): remove the
*main* key only; the backup key is left untouched. -/
def clearHighlightsFromStorage (st : Storage) : Storage :=
  { st with main := none }

/-- The storage phase of the advanced `restoreHighlights` (lines 303-324):
read the main key; when it yields an empty collection and the backup key
is present, copy the backup collection back into the main key.  Returns
the updated storage and the collection handed to `applyHighlights`. -/
def restoreHighlightsStore (st : Storage) : Storage × List Highlight :=
  let highlights := st.main.getD []
  if highlights.length = 0 then
    match st.backup with
    | some backupHighlights =>
        ({ st with main := some backupHighlights }, backupHighlights)
    | none => (st, highlights)
  else (st, highlights)

end Adv

/-- The DOM effect of `clearAllHighlights` (simple variant lines 325-363,
advanced variant lines 534-552) and of the unwrap path of delete: every
element carrying the shared highlight class is replaced by a plain text
node holding its `textContent`.  `querySelectorAll` lists nested
highlights after their ancestors, so replacing an ancestor first collapses
the whole subtree to its text — the net effect modelled here. -/
def unwrapAll : List DNode → List DNode
  | [] => []
  | DNode.text s :: rest => DNode.text s :: unwrapAll rest
  | DNode.elem t i c ch :: rest =>
      if c = highlightClass then DNode.text (textContentL ch) :: unwrapAll rest
      else DNode.elem t i c (unwrapAll ch) :: unwrapAll rest
termination_by l => sizeOf l

/-- The document-level effect of `content.js` `createHighlight`
(lines 167-185) on a live selection: the range's contents `mid` are
removed (`range.deleteContents()`) and a span holding the *flattened text*
of the selection is inserted at the original position. -/
def Simple.createHighlight (pre mid post : List DNode) (hid color : Str) : List DNode :=
  pre ++ [Simple.createHighlightFrag mid hid color] ++ post

/-- The document-level effect of the advanced `createHighlight`
(lines 164-186) on a live selection: the range's contents `mid` are
extracted (`range.extractContents()`), appended into the new span
unchanged, and the span is inserted at the original position. -/
def Adv.createHighlight (pre mid post : List DNode) (hid color : Str) : List DNode :=
  pre ++ [Adv.createHighlightFrag mid hid color] ++ post

/-- A record with blank (whitespace-only) anchor text. -/
def exBlankHl : Highlight :=
  { id := "h2".data, text := "  ".data, color := "#ffff00".data }

/-! ### Specification-side formulations, following the claim wording -/

/-- Spec wording of the exact Locator (§4.1): the first text node in
document order whose content contains the target is rewritten by the
split-and-wrap; when no text node contains the target, NotFound — the
document is unchanged. -/
def locatorSpec (hl : Highlight) (doc : List DNode) : List DNode :=
  match (leavesL doc).findIdx? (fun s => occurs hl.text s) with
  | none => doc
  | some i => replaceLeaf i (fun s => Simple.wrapSplit s hl) doc

/-- Spec wording of the per-node approximate scan (§4.1 fallback): all
candidate pairs `(j, k)` with `k` from `minLength` to
`min(remaining node length, target length)`, enumerated offset-major in
loop order, filtered by the acceptance condition (contained in the target
and of length at least `minLength`); the first accepted candidate wins. -/
def approxSpecInNode (target : Str) (minL : Nat) (s : Str) : Option (Nat × Nat) :=
  ((if minL ≤ s.length then
      (List.range (s.length - minL + 1)).flatMap (fun j =>
        (List.range' minL (Adv.kMax s j target + 1 - minL)).map (fun k => (j, k)))
    else []).filter (fun jk =>
      occurs (slice s jk.1 jk.2) target
        && decide (minL ≤ (slice s jk.1 jk.2).length))).head?

/-- Spec wording of the full-document search: exact first-match over all
text nodes in document order; only when that fails, the first text node
possessing an accepted approximate candidate is rewritten using its first
accepted candidate; when no node qualifies, no highlight is applied. -/
def searchSpec (hl : Highlight) (doc : List DNode) : List DNode :=
  match (leavesL doc).findIdx? (fun s => occurs hl.text s) with
  | some i => replaceLeaf i (fun s => Adv.highlightTextNode s hl) doc
  | none =>
      match (leavesL doc).findIdx?
          (fun s => (approxSpecInNode hl.text (Adv.minLengthOf hl.text) s).isSome) with
      | some i =>
          replaceLeaf i (fun s =>
            match approxSpecInNode hl.text (Adv.minLengthOf hl.text) s with
            | some jk => Adv.highlightTextNode s { hl with text := slice s jk.1 jk.2 }
            | none => [DNode.text s]) doc
      | none => doc

/-! ### Concrete instances used in witnesses and counterexamples -/

/-- A record whose anchor text is "quick brown". -/
def exHl : Highlight :=
  { id := "h1".data, text := "quick brown".data, color := "#ffff00".data }

/-- A document body holding "The quick brown fox" in a single text node. -/
def exBody : List DNode := [DNode.text "The quick brown fox".data]

/-- A document whose first element (path `[0]`) does not contain the
record's text while its second element does. -/
def exAnchorDoc : List DNode :=
  [DNode.elem "div".data "a1".data [] [DNode.text "hello world".data],
   DNode.elem "p".data [] [] [DNode.text "The quick brown fox".data]]

/-- An extracted selection fragment with internal element structure. -/
def exFrag : List DNode :=
  [DNode.text "a".data, DNode.elem "b".data [] [] [DNode.text "bold".data]]

/-- The span that restoring `exHl` on `exBody` creates. -/
def exSpanInner : DNode :=
  DNode.elem "span".data "h1".data highlightClass [DNode.text "quick brown".data]

/-- The document after one restoration pass of `exHl` on `exBody`. -/
def exWrapped : List DNode :=
  [DNode.text "The ".data, exSpanInner, DNode.text " fox".data]

/-- The document after a second restoration pass: the walker finds the
record's text inside the existing span and wraps it again, nesting a
second span with the same id. -/
def exWrapped2 : List DNode :=
  [DNode.text "The ".data,
   DNode.elem "span".data "h1".data highlightClass [exSpanInner],
   DNode.text " fox".data]

/-! ### Generic lemmas about the traversals -/

/-- A search loop with `break` (`find?`) returns the head of the filtered
candidate list. -/
theorem find?_as_filter_head {α : Type} (p : α → Bool) (l : List α) :
    l.find? p = (l.filter p).head? := by
  induction l with
  | nil => rfl
  | cons a l ih =>
      rw [List.find?_cons, List.filter_cons]
      cases h : p a
      · simpa using ih
      · simp

/-- Two nested loops that stop at the first passing pair visit the
candidates in lexicographic order: the first hit equals the head of the
filtered flat enumeration. -/
theorem findSome?_nested {α β : Type} (l : List α) (f : α → List β) (q : α → β → Bool) :
    l.findSome? (fun a => ((f a).find? (q a)).map (fun b => (a, b)))
      = ((l.flatMap (fun a => (f a).map (fun b => (a, b)))).filter
          (fun ab => q ab.1 ab.2)).head? := by
  induction l with
  | nil => rfl
  | cons a l ih =>
      rw [List.findSome?_cons, List.flatMap_cons, List.filter_append, List.head?_append]
      rw [List.filter_map, List.head?_map]
      have hq : ((fun ab : α × β => q ab.1 ab.2) ∘ (fun b => (a, b))) = q a := rfl
      rw [hq, ← find?_as_filter_head]
      cases hfa : (f a).find? (q a) with
      | none => simp [ih]
      | some b => simp

/-- The fundamental characterisation of the restoration walker: the tree
traversal with `break` rewrites exactly the first text node (in document
order) on which `hit` fires, and reports whether one fired. -/
theorem scanFirst_eq (hit : Str → Option (List DNode)) (l : List DNode) :
    scanFirst hit l =
      match (leavesL l).findIdx? (fun s => (hit s).isSome) with
      | none => (l, false)
      | some i => (replaceLeaf i (fun s => (hit s).getD [DNode.text s]) l, true) := by
  induction l using scanFirst.induct hit with
  | case1 => simp [scanFirst, leavesL]
  | case2 s rest repl hs =>
      simp [scanFirst, leavesL, hs, List.findIdx?_cons, replaceLeaf]
  | case3 s rest hs ih =>
      rw [scanFirst]
      simp only [hs, leavesL, List.findIdx?_cons, Option.isSome_none, if_neg, Bool.false_eq_true,
        List.findIdx?_succ]
      cases hfi : (leavesL rest).findIdx? (fun s => (hit s).isSome) with
      | none => simp [ih, hfi]
      | some i => simp [ih, hfi, replaceLeaf]
  | case4 tag eid cls ch rest p hp ih =>
      have hp2 : (scanFirst hit ch).2 = true := hp
      rw [ih] at hp2
      rw [scanFirst, ih]
      cases hfi : (leavesL ch).findIdx? (fun s => (hit s).isSome) with
      | none =>
          rw [hfi] at hp2
          simp at hp2
      | some k =>
          have hklt : k < (leavesL ch).length :=
            (List.findIdx?_eq_some_iff_findIdx_eq.mp hfi).1
          simp [leavesL, List.findIdx?_append, hfi, replaceLeaf, hklt]
  | case5 tag eid cls ch rest p hp ihch ihrest =>
      have hp2 : ¬ (scanFirst hit ch).2 = true := hp
      rw [ihch] at hp2
      rw [scanFirst, ihch]
      cases hfi : (leavesL ch).findIdx? (fun s => (hit s).isSome) with
      | some k =>
          rw [hfi] at hp2
          simp at hp2
      | none =>
          cases hfr : (leavesL rest).findIdx? (fun s => (hit s).isSome) with
          | none => simp [leavesL, List.findIdx?_append, hfi, hfr, ihrest]
          | some j =>
              have hnlt : ¬ (j + (leavesL ch).length < (leavesL ch).length) := by omega
              simp [leavesL, List.findIdx?_append, hfi, hfr, ihrest, replaceLeaf, hnlt]

/-- When no text node fires the hit, the walker leaves the document
unchanged and reports no replacement. -/
theorem scanFirst_of_no_hit (hit : Str → Option (List DNode)) (l : List DNode)
    (h : ∀ s ∈ leavesL l, hit s = none) : scanFirst hit l = (l, false) := by
  rw [scanFirst_eq]
  have hn : (leavesL l).findIdx? (fun s => (hit s).isSome) = none := by
    rw [List.findIdx?_eq_none_iff]
    intro s hs
    simp [h s hs]
  rw [hn]

/-- `replaceLeaf` only evaluates its replacement function at the selected
text node, so functions that agree there are interchangeable. -/
theorem replaceLeaf_congr : ∀ (k : Nat) (f : Str → List DNode) (l : List DNode)
    (g : Str → List DNode),
    (∀ s, (leavesL l)[k]? = some s → f s = g s) →
    replaceLeaf k f l = replaceLeaf k g l := by
  intro k f l
  induction k, f, l using replaceLeaf.induct with
  | case1 => intro g _; simp [replaceLeaf]
  | case2 repl s rest =>
      intro g h
      have hs := h s (by simp [leavesL])
      simp [replaceLeaf, hs]
  | case3 repl s rest k ih =>
      intro g h
      simp only [replaceLeaf]
      rw [ih g]
      intro x hx
      apply h x
      simpa [leavesL] using hx
  | case4 k repl tag eid cls ch rest hk ih =>
      intro g h
      simp only [replaceLeaf, if_pos hk]
      rw [ih g]
      intro x hx
      apply h x
      simp only [leavesL]
      rw [List.getElem?_append_left hk]
      exact hx
  | case5 k repl tag eid cls ch rest hk ih =>
      intro g h
      simp only [replaceLeaf, if_neg hk]
      rw [ih g]
      intro x hx
      apply h x
      have hle : (leavesL ch).length ≤ k := Nat.le_of_not_lt hk
      simp only [leavesL]
      rw [List.getElem?_append_right hle]
      exact hx

/-- The element found by `findIdx?` satisfies the predicate. -/
theorem findIdx?_getElem_pred {α : Type} {l : List α} {p : α → Bool} {i : Nat}
    (h : l.findIdx? p = some i) : ∃ x, l[i]? = some x ∧ p x = true := by
  obtain ⟨hlt, hp, -⟩ := List.findIdx?_eq_some_iff_getElem.mp h
  exact ⟨l[i], by simp [List.getElem?_eq_getElem hlt], hp⟩

/-- C8: for every non-empty target string, the exact Locator (the walker
loop of `content.js` `restoreHighlight`, lines 286-316) wraps the target's
first occurrence within the first text node, in document order, whose
content contains the target; when no text node contains it, it makes no
DOM change for that record. -/
theorem C8_exact_locator_first_match (hl : Highlight) (doc : List DNode)
    (hne : hl.text ≠ []) :
    Simple.locateWrap hl doc = locatorSpec hl doc
    ∧ ((∀ s ∈ leavesL doc, occurs hl.text s = false) →
        Simple.locateWrap hl doc = doc) := by
  have hpred : (fun s => (Simple.hitExact hl s).isSome) = (fun s => occurs hl.text s) := by
    funext s
    by_cases h : occurs hl.text s <;> simp [Simple.hitExact, h]
  constructor
  · unfold Simple.locateWrap locatorSpec
    rw [scanFirst_eq, hpred]
    cases hfi : (leavesL doc).findIdx? (fun s => occurs hl.text s) with
    | none => rfl
    | some i =>
        simp only []
        apply replaceLeaf_congr
        intro s hs
        obtain ⟨x, hx, hpx⟩ := findIdx?_getElem_pred hfi
        rw [hx] at hs
        cases hs
        simp [Simple.hitExact, hpx]
  · intro h
    unfold Simple.locateWrap
    rw [scanFirst_of_no_hit]
    intro s hs
    simp [Simple.hitExact, h s hs]

/-- Witness for C8 at a concrete record and document. -/
theorem C8_witness :
    (exHl.text ≠ []) ∧
      (Simple.locateWrap exHl exBody = locatorSpec exHl exBody
        ∧ ((∀ s ∈ leavesL exBody, occurs exHl.text s = false) →
            Simple.locateWrap exHl exBody = exBody)) :=
  ⟨by decide, C8_exact_locator_first_match exHl exBody (by decide)⟩

/-- The nested offset/length loops of the approximate phase accept exactly
the first qualifying candidate in lexicographic loop order. -/
theorem approxInNode_as_spec (target : Str) (minL : Nat) (s : Str) :
    Adv.approxInNode target minL s = approxSpecInNode target minL s := by
  unfold Adv.approxInNode approxSpecInNode
  by_cases h : minL ≤ s.length
  · rw [if_pos h, if_pos h]
    exact findSome?_nested _ _ _
  · rw [if_neg h, if_neg h]
    simp

/-- C2: the advanced `searchAndHighlightText` equals its specification:
exact full-document search first; the approximate fallback runs only when
it fails, accepts the first qualifying substring in scan order, and when
nothing qualifies no highlight is applied. -/
theorem C2_search_matches_spec (hl : Highlight) (doc : List DNode) :
    Adv.searchAndHighlightText hl doc = searchSpec hl doc
    ∧ ((∀ s ∈ leavesL doc, occurs hl.text s = false) →
       (∀ s ∈ leavesL doc,
          approxSpecInNode hl.text (Adv.minLengthOf hl.text) s = none) →
       Adv.searchAndHighlightText hl doc = doc) := by
  have hpredE : (fun s => (Adv.hitExact hl s).isSome) = (fun s => occurs hl.text s) := by
    funext s
    by_cases h : occurs hl.text s <;> simp [Adv.hitExact, h]
  have hpredA : (fun s => (Adv.hitApprox hl (Adv.minLengthOf hl.text) s).isSome)
      = (fun s => (approxSpecInNode hl.text (Adv.minLengthOf hl.text) s).isSome) := by
    funext s
    simp [Adv.hitApprox, approxInNode_as_spec]
  constructor
  · unfold Adv.searchAndHighlightText searchSpec
    rw [scanFirst_eq, hpredE]
    cases hfi : (leavesL doc).findIdx? (fun s => occurs hl.text s) with
    | some i =>
        simp only []
        apply replaceLeaf_congr
        intro s hs
        obtain ⟨x, hx, hpx⟩ := findIdx?_getElem_pred hfi
        rw [hx] at hs
        cases hs
        simp [Adv.hitExact, hpx]
    | none =>
        simp only []
        rw [scanFirst_eq, hpredA]
        cases hfa : (leavesL doc).findIdx?
            (fun s => (approxSpecInNode hl.text (Adv.minLengthOf hl.text) s).isSome) with
        | none => rfl
        | some i =>
            simp only []
            apply replaceLeaf_congr
            intro s hs
            obtain ⟨x, hx, hpx⟩ := findIdx?_getElem_pred hfa
            rw [hx] at hs
            cases hs
            cases happ : approxSpecInNode hl.text (Adv.minLengthOf hl.text) s with
            | none => rw [happ] at hpx; simp at hpx
            | some jk =>
                simp [Adv.hitApprox, approxInNode_as_spec, happ]
  · intro hex happ
    have h1 : ∀ s ∈ leavesL doc, Adv.hitExact hl s = none := by
      intro s hs
      simp [Adv.hitExact, hex s hs]
    have h2 : ∀ s ∈ leavesL doc, Adv.hitApprox hl (Adv.minLengthOf hl.text) s = none := by
      intro s hs
      simp [Adv.hitApprox, approxInNode_as_spec, happ s hs]
    unfold Adv.searchAndHighlightText
    rw [scanFirst_of_no_hit _ _ h1, scanFirst_of_no_hit _ _ h2]
    simp

/-- Witness for C2's conditional clause at a concrete record and document:
no exact occurrence and no qualifying approximate candidate, hence no
highlight applied. -/
theorem C2_witness :
    (∀ s ∈ leavesL [DNode.text "completely unrelated content".data],
        occurs "quick brown fox".data s = false)
    ∧ Adv.searchAndHighlightText
        { id := "h9".data, text := "quick brown fox".data, color := "#ffff00".data }
        [DNode.text "completely unrelated content".data]
      = [DNode.text "completely unrelated content".data] := by
  constructor
  · simp +decide [leavesL]
  · exact (C2_search_matches_spec _ _).2 (by simp +decide [leavesL])
      (by simp +decide [leavesL])


/-- Setting a list entry to the value it already holds is the identity. -/
theorem list_set_self {α : Type} : ∀ (l : List α) (n : Nat) (e : α),
    l[n]? = some e → l.set n e = l := by
  intro l
  induction l with
  | nil => intro n e h; simp at h
  | cons a l ih =>
      intro n e h
      cases n with
      | zero =>
          simp at h
          simp [h]
      | succ n =>
          simp at h
          simp [ih n e h]

/-- Writing back the node that a path resolves to leaves the document
unchanged. -/
theorem setNode_of_getNode : ∀ (p : List Nat) (l : List DNode) (e : DNode),
    getNode l p = some e → setNode l p e = l := by
  intro p
  induction p with
  | nil => intro l e h; simp [getNode] at h
  | cons n p ih =>
      intro l e h
      cases p with
      | nil =>
          simp only [getNode] at h
          simp only [setNode]
          exact list_set_self l n e h
      | cons m p2 =>
          simp only [getNode] at h
          simp only [setNode]
          cases hn : l[n]? with
          | none => simp [hn] at h
          | some x =>
              cases x with
              | text s => simp [hn] at h
              | elem t i c ch =>
                  simp only [hn] at h ⊢
                  rw [ih ch e h]
                  exact list_set_self l n _ hn

/-- C3 counterexample: the record's text is present in the document, yet
when the structural anchor resolves to an element that does not contain
it, the advanced `restoreHighlight` changes nothing — it does not fall
through to the full-document Locator, contradicting the claim that such a
record is always wrapped. -/
theorem C3_counterexample :
    Adv.restoreHighlight (some [0]) none exHl exAnchorDoc = exAnchorDoc
    ∧ (leavesL exAnchorDoc).any (fun s => occurs exHl.text s) = true
    ∧ countByIdL exHl.id exAnchorDoc = 0 := by
  refine ⟨?_, ?_, ?_⟩
  · simp +decide [Adv.restoreHighlight, getNode, setNode, Adv.findAndHighlightText,
      Adv.hitExact, scanFirst, exAnchorDoc, exHl]
  · simp +decide [leavesL, exAnchorDoc, exHl]
  · simp +decide [countByIdL, exAnchorDoc, exHl]

/-- C3 (amended): the advanced `restoreHighlight` consults the selector
result first (the XPath result is ignored whenever the selector resolved),
falls through to the full-document Locator exactly when neither resolution
yields a node, and — when the anchor resolves to an element none of whose
text nodes contain the record's text — applies nothing at all. -/
theorem C3_resolution_order (hl : Highlight) (doc : List DNode) (p : List Nat)
    (xr : Option (List Nat)) (e : DNode)
    (h1 : getNode doc p = some e)
    (h2 : ∀ s ∈ leavesL (childrenOf e), occurs hl.text s = false) :
    Adv.restoreHighlight none none hl doc = Adv.searchAndHighlightText hl doc
    ∧ Adv.restoreHighlight (some p) xr hl doc
        = setNode doc p (Adv.findAndHighlightText hl e)
    ∧ Adv.restoreHighlight (some p) xr hl doc = doc := by
  have hfe : Adv.findAndHighlightText hl e = e := by
    cases e with
    | text s => rfl
    | elem t i c ch =>
        have hnh : scanFirst (Adv.hitExact hl) ch = (ch, false) :=
          scanFirst_of_no_hit _ _ (fun s hs => by
            simp [Adv.hitExact, h2 s (by simpa [childrenOf] using hs)])
        simp [Adv.findAndHighlightText, hnh]
  refine ⟨rfl, ?_, ?_⟩
  · unfold Adv.restoreHighlight
    simp [h1]
  · unfold Adv.restoreHighlight
    simp [h1, hfe, setNode_of_getNode p doc e h1]

/-- Witness for C3's amended theorem at a concrete document whose anchor
resolves to an element not containing the record's text. -/
theorem C3_witness :
    (getNode exAnchorDoc [0]
        = some (DNode.elem "div".data "a1".data [] [DNode.text "hello world".data]))
    ∧ (Adv.restoreHighlight none none exHl exAnchorDoc
          = Adv.searchAndHighlightText exHl exAnchorDoc
        ∧ Adv.restoreHighlight (some [0]) none exHl exAnchorDoc
            = setNode exAnchorDoc [0]
                (Adv.findAndHighlightText exHl
                  (DNode.elem "div".data "a1".data [] [DNode.text "hello world".data]))
        ∧ Adv.restoreHighlight (some [0]) none exHl exAnchorDoc = exAnchorDoc) := by
  constructor
  · simp [getNode, exAnchorDoc]
  · exact C3_resolution_order exHl exAnchorDoc [0] none _
      (by simp [getNode, exAnchorDoc])
      (by simp +decide [leavesL, childrenOf, exHl])

/-- Concatenation distributes over the flattened text content. -/
theorem textContentL_append : ∀ (a b : List DNode),
    textContentL (a ++ b) = textContentL a ++ textContentL b := by
  intro a b
  induction a with
  | nil => simp [textContentL]
  | cons x a ih => cases x <;> simp [textContentL, ih]

/-- Unwrapping every highlight span preserves the document's flattened
text content. -/
theorem textContentL_unwrapAll : ∀ (l : List DNode),
    textContentL (unwrapAll l) = textContentL l := by
  intro l
  induction l using unwrapAll.induct with
  | case1 => simp [unwrapAll]
  | case2 s rest ih => simp [unwrapAll, textContentL, ih]
  | case3 tag eid ch rest ih => simp [unwrapAll, textContentL, ih]
  | case4 tag eid cls ch rest h ihc ih => simp [unwrapAll, textContentL, h, ihc, ih]

/-- C6: for every wrapped range, unwrapping restores the text content of
the affected region byte-for-byte — in both the advanced variant (which
keeps the extracted child structure) and the simple variant (which
flattens it), since the wrapper span contributes no text of its own. -/
theorem C6_unwrap_wrap_roundtrip (pre mid post : List DNode) (hid color : Str) :
    textContentL (unwrapAll (Adv.createHighlight pre mid post hid color))
      = textContentL (pre ++ mid ++ post)
    ∧ textContentL (unwrapAll (Simple.createHighlight pre mid post hid color))
      = textContentL (pre ++ mid ++ post) := by
  constructor
  · rw [textContentL_unwrapAll]
    simp [Adv.createHighlight, Adv.createHighlightFrag, textContentL_append, textContentL]
  · rw [textContentL_unwrapAll]
    simp [Simple.createHighlight, Simple.createHighlightFrag, textContentL_append, textContentL]

/-- C7 counterexample: the simple variant's `createHighlight` replaces the
extracted contents by their flattened text, so a selection containing an
element (here a `b` element) loses its child structure — contradicting the
claim for that variant. -/
theorem C7_counterexample :
    childrenOf (Simple.createHighlightFrag exFrag "h1".data "#ffff00".data) ≠ exFrag
    ∧ countByTagL "b".data
        (Simple.createHighlight [] exFrag [] "h1".data "#ffff00".data) = 0
    ∧ countByTagL "b".data exFrag = 1 := by
  refine ⟨?_, ?_, ?_⟩
  · simp [Simple.createHighlightFrag, childrenOf, exFrag]
  · simp +decide [Simple.createHighlight, Simple.createHighlightFrag, countByTagL, exFrag]
  · simp +decide [countByTagL, exFrag]

/-- C7 (amended): the advanced variant's `createHighlight` wraps the
extracted contents in a uniquely-identified span carrying the shared
highlight class, inserted at the original position, preserving all child
structure; the simple variant instead replaces the contents by a single
text node holding their flattened text. -/
theorem C7_wrap_structure (pre mid post : List DNode) (hid color : Str) :
    Adv.createHighlight pre mid post hid color
      = pre ++ [DNode.elem "span".data hid highlightClass mid] ++ post
    ∧ childrenOf (Adv.createHighlightFrag mid hid color) = mid
    ∧ textContentL (Adv.createHighlight pre mid post hid color)
        = textContentL (pre ++ mid ++ post)
    ∧ childrenOf (Simple.createHighlightFrag mid hid color)
        = [DNode.text (textContentL mid)] := by
  refine ⟨rfl, rfl, ?_, rfl⟩
  simp [Adv.createHighlight, Adv.createHighlightFrag, textContentL_append, textContentL]

/-- Evaluation of one restoration pass of `exHl` on `exBody`: the text
node splits into "The ", the highlight span, and " fox". -/
theorem restore_once_eval : Simple.restoreHighlight exHl exBody = exWrapped := by
  have ehg : jsBlank exHl.text = false := rfl
  have eh1 : Simple.hitExact exHl "The quick brown fox".data = some exWrapped := rfl
  simp [Simple.restoreHighlight, Simple.locateWrap, exBody, scanFirst, ehg, eh1]

/-- Evaluation of a second restoration pass on the already-restored
document: the record's text is found in the text node inside the existing
span and is wrapped again. -/
theorem restore_twice_eval : Simple.restoreHighlight exHl exWrapped = exWrapped2 := by
  have eh2 : Simple.hitExact exHl "The ".data = none := rfl
  have eh3 : Simple.hitExact exHl "quick brown".data = some [exSpanInner] := rfl
  have h1 : scanFirst (Simple.hitExact exHl) [DNode.text "quick brown".data]
      = ([exSpanInner], true) := by
    simp only [scanFirst, eh3, List.append_nil]
  have h2 : scanFirst (Simple.hitExact exHl) [exSpanInner, DNode.text " fox".data]
      = ([DNode.elem "span".data "h1".data highlightClass [exSpanInner],
          DNode.text " fox".data], true) := by
    rw [show exSpanInner
        = DNode.elem "span".data "h1".data highlightClass [DNode.text "quick brown".data]
      from rfl]
    simp only [scanFirst, h1, exSpanInner, if_true]
  have h3 : scanFirst (Simple.hitExact exHl)
        [DNode.text "The ".data, exSpanInner, DNode.text " fox".data]
      = ([DNode.text "The ".data,
          DNode.elem "span".data "h1".data highlightClass [exSpanInner],
          DNode.text " fox".data], true) := by
    simp only [scanFirst, eh2, h2, if_true]
  rw [Simple.restoreHighlight.eq_def]
  rw [if_neg (by decide)]
  rw [Simple.locateWrap.eq_def]
  rw [show exWrapped = [DNode.text "The ".data, exSpanInner, DNode.text " fox".data]
    from rfl]
  rw [h3]
  rfl

/-- C1 (code bug): the `content.js` restoration routine `restoreHighlight`
performs no check for an existing live element carrying the record's id
(only the mutation-observer path `checkForLostHighlights` does, via
`document.getElementById`).  Running restoration twice on an unchanged
document re-wraps the text inside the first span: afterwards two live
spans share the id `h1`, refuting "anchored exactly once". -/
theorem C1_restore_twice_double_wraps :
    countByIdL exHl.id (Simple.restoreHighlight exHl exBody) = 1
    ∧ countByIdL exHl.id
        (Simple.restoreHighlight exHl (Simple.restoreHighlight exHl exBody)) = 2 := by
  rw [restore_once_eval, restore_twice_eval]
  constructor <;>
    simp [countByIdL, exWrapped, exWrapped2, exSpanInner, exHl, highlightClass]

/-- C4: restoring the record `text = "quick brown"` on a document holding
"The quick brown fox" in a single text node yields exactly one highlighted
span whose content is "quick brown", with "The " and " fox" left as
unwrapped sibling text nodes; only the exact matched substring is
wrapped. -/
theorem C4_restore_splits_siblings :
    Simple.restoreHighlight exHl exBody
      = [DNode.text "The ".data,
         DNode.elem "span".data "h1".data highlightClass [DNode.text "quick brown".data],
         DNode.text " fox".data]
    ∧ countByClassL highlightClass (Simple.restoreHighlight exHl exBody) = 1 := by
  rw [restore_once_eval]
  constructor
  · rfl
  · simp [countByClassL, exWrapped, exSpanInner, highlightClass]

/-- C5 counterexample: with the storage write failing, `highlightSelection`
still reports success (`saveHighlight` catches the error and is not
awaited), although the record was not persisted — refuting "createHighlight
does not report success when the record was not persisted". -/
theorem C5_counterexample :
    (Simple.highlightSelection false "hello".data "h1".data "#ffff00".data none).1.success
      = true
    ∧ (Simple.highlightSelection false "hello".data "h1".data "#ffff00".data none).2
      = none := by
  decide

/-- C5 (amended): when the storage write fails during creation, no partial
write is committed (the store is unchanged), but the failure is only
logged inside `saveHighlight`: `highlightSelection` still reports success
for any non-blank selection. -/
theorem C5_failed_write_not_surfaced (st : Option (List Highlight))
    (sel hid color : Str) (h : jsBlank sel = false) :
    (Simple.highlightSelection false sel hid color st).1.success = true
    ∧ (Simple.highlightSelection false sel hid color st).2 = st := by
  constructor <;> simp [Simple.highlightSelection, h, Simple.saveHighlight]

/-- Witness for C5's amended theorem at a concrete non-blank selection. -/
theorem C5_witness :
    jsBlank "hello".data = false
    ∧ ((Simple.highlightSelection false "hello".data "h1".data "#ffff00".data
          (some [exHl])).1.success = true
        ∧ (Simple.highlightSelection false "hello".data "h1".data "#ffff00".data
            (some [exHl])).2 = some [exHl]) :=
  ⟨by decide,
   C5_failed_write_not_surfaced (some [exHl]) "hello".data "h1".data "#ffff00".data
     (by decide)⟩

/-- C9: a blank selection makes creation fail without persisting anything;
restoration skips records with blank text; and `highlightSelection`
preserves the invariant that every persisted record has non-empty text
(the new record's text is the non-blank selection). -/
theorem C9_empty_selection_rejected (writeOk : Bool) (st : Option (List Highlight))
    (sel selB hid color : Str) (hl : Highlight) (doc : List DNode)
    (hselB : jsBlank selB = true) (hhl : jsBlank hl.text = true)
    (hst : ∀ r ∈ st.getD [], r.text ≠ []) :
    (Simple.highlightSelection writeOk selB hid color st).1.success = false
    ∧ (Simple.highlightSelection writeOk selB hid color st).2 = st
    ∧ Simple.restoreHighlight hl doc = doc
    ∧ ∀ r ∈ (Simple.highlightSelection writeOk sel hid color st).2.getD [],
        r.text ≠ [] := by
  refine ⟨?_, ?_, ?_, ?_⟩
  · simp [Simple.highlightSelection, hselB]
  · simp [Simple.highlightSelection, hselB]
  · simp [Simple.restoreHighlight, hhl]
  · intro r hr
    by_cases hb : jsBlank sel = true
    · simp only [Simple.highlightSelection, hb, if_pos] at hr
      exact hst r hr
    · have hb' : jsBlank sel = false := by simpa using hb
      have hne : sel ≠ [] := by
        intro he
        rw [he] at hb'
        simp [jsBlank] at hb'
      cases writeOk with
      | false =>
          simp only [Simple.highlightSelection, hb', Simple.saveHighlight] at hr
          simp at hr
          exact hst r hr
      | true =>
          simp only [Simple.highlightSelection, hb', Simple.saveHighlight] at hr
          simp at hr
          cases hr with
          | inl hmem => exact hst r hmem
          | inr heq => rw [heq]; exact hne

/-- Witness for C9 at concrete inputs: blank selection " ", blank record,
a store whose single record has non-empty text. -/
theorem C9_witness :
    (jsBlank "  ".data = true ∧ jsBlank exBlankHl.text = true
        ∧ ∀ r ∈ (some [exHl]).getD [], r.text ≠ [])
    ∧ ((Simple.highlightSelection true "  ".data "h3".data "#ffff00".data
          (some [exHl])).1.success = false
        ∧ (Simple.highlightSelection true "  ".data "h3".data "#ffff00".data
            (some [exHl])).2 = some [exHl]
        ∧ Simple.restoreHighlight exBlankHl exBody = exBody
        ∧ ∀ r ∈ (Simple.highlightSelection true "hello".data "h3".data "#ffff00".data
              (some [exHl])).2.getD [], r.text ≠ []) :=
  ⟨⟨by decide, by decide, by decide⟩,
   C9_empty_selection_rejected true (some [exHl]) "hello".data "  ".data "h3".data
     "#ffff00".data exBlankHl exBody (by decide) (by decide) (by decide)⟩

/-- C10: the advanced variant's save writes the collection to both the
main and the backup key; `clearAllHighlights` removes only the main key;
a later `restoreHighlights` then finds main storage empty, copies the
(non-empty) backup collection back into the main key, and hands exactly
the previously cleared highlights to `applyHighlights`. -/
theorem C10_backup_resurrects_cleared_highlights (st : Adv.Storage) (r : Highlight) :
    (Adv.clearHighlightsFromStorage (Adv.saveHighlight st r)).main = none
    ∧ (Adv.clearHighlightsFromStorage (Adv.saveHighlight st r)).backup
        = some ((st.main.getD []) ++ [r])
    ∧ (Adv.restoreHighlightsStore
          (Adv.clearHighlightsFromStorage (Adv.saveHighlight st r))).2
        = (st.main.getD []) ++ [r]
    ∧ (Adv.restoreHighlightsStore
          (Adv.clearHighlightsFromStorage (Adv.saveHighlight st r))).1.main
        = some ((st.main.getD []) ++ [r])
    ∧ (st.main.getD []) ++ [r] ≠ [] := by
  refine ⟨rfl, rfl, ?_, ?_, by simp⟩ <;>
    simp [Adv.restoreHighlightsStore, Adv.clearHighlightsFromStorage, Adv.saveHighlight]

end HiLite
